import Mathlib

/-
Verification of the agent-install monitor (monitor.py) against its design
specification.  The Python source is shallowly embedded: every stateful
method becomes a pure Lean function on an explicit state record, string
processing is done character by character (Python str operations are
modelled over `String.data`), machine integers are `Nat`/`Int` (Python
ints are unbounded, so no wrap-around is needed), and Python float
arithmetic (the progress formula of lines 484-486 and the memory
percentage of line 1162) is modelled bit-exactly as IEEE-754 binary64:
every float operation is the correctly rounded (nearest, ties to even,
with subnormal quantization) value of its exact rational result,
represented as an integer dyadic pair.  Fallible Python
code (try/except around subprocess and parsing) is modelled by `Option`
results or explicit outcome constructors.
-/

/- ---------------------------------------------------------------------
   Generic string helpers.  These model the Python `str` operations used
   by monitor.py: split('\n'), split(), strip(), strip('='), rstrip('%'),
   lower(), slicing s[:n], substring membership `in`, and int().
   All are structural recursions over `List Char` so that the kernel can
   evaluate them on concrete witnesses.
--------------------------------------------------------------------- -/

/-- `output.split('\n')` over the character list: every newline is a
separator and empty pieces are kept, exactly like Python `str.split('\n')`. -/
def splitLinesC : List Char → List (List Char)
  | [] => [[]]
  | c :: rest =>
    match splitLinesC rest with
    | [] => []
    | l :: ls => if c = '\n' then [] :: l :: ls else (c :: l) :: ls

/-- `output.split('\n')` producing `String`s. -/
def splitLinesStr (s : String) : List String := (splitLinesC s.data).map String.mk

/-- Helper for Python `str.split()` (whitespace split, no empty pieces):
`cur` holds the characters of the current word in reverse. -/
def splitWsAux (cur : List Char) : List Char → List (List Char)
  | [] => if cur.isEmpty then [] else [cur.reverse]
  | c :: rest =>
    if c.isWhitespace then
      if cur.isEmpty then splitWsAux [] rest
      else cur.reverse :: splitWsAux [] rest
    else splitWsAux (c :: cur) rest

/-- Python `line.split()`: split on runs of whitespace, dropping empties. -/
def pySplit (s : String) : List String := (splitWsAux [] s.data).map String.mk

/-- Python `s.strip()`: drop whitespace from both ends. -/
def trimStr (s : String) : String :=
  String.mk ((s.data.dropWhile Char.isWhitespace).reverse.dropWhile Char.isWhitespace).reverse

/-- Python `s.strip('=')`: drop equals signs from both ends. -/
def stripEq (s : String) : String :=
  String.mk (((s.data.dropWhile (fun c => c = '=')).reverse.dropWhile (fun c => c = '=')).reverse)

/-- Python `s.rstrip('%')`: drop percent signs from the right end. -/
def rstripPercent (s : String) : String :=
  String.mk (s.data.reverse.dropWhile (fun c => c = '%')).reverse

/-- Python `s.lower()` (ASCII case folding, which covers every pattern the
monitor searches for). -/
def lowerStr (s : String) : String := String.mk (s.data.map Char.toLower)

/-- Python slicing `s[:n]` (by characters). -/
def takeStr (n : Nat) (s : String) : String := String.mk (s.data.take n)

/-- Auxiliary for substring membership. -/
def containsSubAux (p : List Char) : List Char → Bool
  | [] => p.isEmpty
  | c :: rest => p.isPrefixOf (c :: rest) || containsSubAux p rest

/-- Python substring membership `pat in s`. -/
def containsSub (s pat : String) : Bool := containsSubAux pat.data s.data

/-- Python `line.startswith("===") and line.endswith("===")`, the section
sentinel test of `_ssh_check_node`.  (`"===".endswith("===")` is true in
Python, and equally here via the reversed prefix test.) -/
def headerOf (l : String) : Bool :=
  ['=', '=', '='].isPrefixOf l.data && ['=', '=', '='].isPrefixOf l.data.reverse

/-- Value of a non-empty all-digit character list, `none` otherwise. -/
def digitsVal : List Char → Option Nat
  | [] => none
  | [c] => if c.isDigit then some (c.toNat - 48) else none
  | c :: rest =>
    if c.isDigit then
      match digitsVal rest with
      | some v => some ((c.toNat - 48) * 10 ^ rest.length + v)
      | none => none
    else none

/-- Python `int(s)` on the strings produced here: an optional sign followed
by decimal digits; anything else raises ValueError, modelled as `none`. -/
def pyInt (s : String) : Option Int :=
  match s.data with
  | '-' :: rest => (digitsVal rest).map (fun n => -(n : Int))
  | '+' :: rest => (digitsVal rest).map (fun n => (n : Int))
  | cs => (digitsVal cs).map (fun n => (n : Int))

/-- Python `'\n'.join(lines)`. -/
def joinNl : List String → String
  | [] => ""
  | [s] => s
  | s :: rest => s ++ "\n" ++ joinNl rest

/-- Python `l[-n:]`: the last `n` elements. -/
def lastN (n : Nat) (l : List α) : List α := l.drop (l.length - n)

/-- Characters of `a` before the first `/`, i.e. Python `a.split("/")[0]`. -/
def beforeSlash (a : String) : String := String.mk (a.data.takeWhile (fun c => c ≠ '/'))

/- ---------------------------------------------------------------------
   ModeController: the mode/counter state of AgentMonitor and the mode
   transition logic of `refresh` (monitor.py lines 358-455).
--------------------------------------------------------------------- -/

/-- The mode-relevant mutable fields of `AgentMonitor`: `self.mode`
(`"api"` or `"oc"`), `self.api_fail_count` and `self.api_success_count`
(monitor.py lines 90-92). -/
structure ModeState where
  mode : String
  apiFailCount : Nat
  apiSuccessCount : Nat
deriving DecidableEq

/-- Outcome of one SOURCE_A poll in `refresh`: `get_cluster()` returned
the sentinel `"no_token"`, a cluster record, or nothing (`None`). -/
inductive PollOutcome
  | noToken
  | success
  | failure
deriving DecidableEq

/-- The external observations one `refresh` cycle can make: the poll
outcome, the result the reachability probe `kube_api_reachable()` would
report, the number of nodes `get_oc_nodes()` would return, and the
expected node count `len(self.hostname_by_mac)` from agent-config.yaml. -/
structure PollInput where
  outcome : PollOutcome
  kubeReachable : Bool
  ocNodeCount : Nat
  expectedNodes : Nat
deriving DecidableEq

/-- Initial monitor state (`__init__`, monitor.py lines 90-92). -/
def initModeState : ModeState := ⟨"api", 0, 0⟩

/-- The mode-transition logic of one `refresh` cycle (monitor.py lines
358-444).  In `"api"` mode: a `no_token` result changes nothing; a
successful poll resets `api_fail_count`, increments `api_success_count`
and then switches to `"oc"` when the kube API is reachable, the visible
node count reaches the expected count and the expected count is positive
(lines 412-418); a failed poll increments `api_fail_count` and switches
to `"oc"` when the updated count is at least 3 and `api_success_count`
exceeds 5 (lines 424-430).  Outside `"api"` mode the branch is skipped. -/
def refresh (s : ModeState) (inp : PollInput) : ModeState :=
  if s.mode = "api" then
    match inp.outcome with
    | PollOutcome.noToken => s
    | PollOutcome.success =>
      let s1 : ModeState := ⟨s.mode, 0, s.apiSuccessCount + 1⟩
      if inp.kubeReachable = true ∧ inp.ocNodeCount ≥ inp.expectedNodes ∧
          0 < inp.expectedNodes then
        ⟨"oc", s1.apiFailCount, s1.apiSuccessCount⟩
      else s1
    | PollOutcome.failure =>
      let s1 : ModeState := ⟨s.mode, s.apiFailCount + 1, s.apiSuccessCount⟩
      if s1.apiFailCount ≥ 3 ∧ s1.apiSuccessCount > 5 then
        ⟨"oc", s1.apiFailCount, s1.apiSuccessCount⟩
      else s1
  else s

/-- Claim C1 formalised literally as stated by the specification: the mode
switches if and only if (consecutive-failure count at least 3 and prior
successes more than 5) or (reachability probe succeeds and visible node
count at least the expected count).  This follows the spec wording, to be
compared against `refresh`. -/
def claimC1At (s : ModeState) (inp : PollInput) : Prop :=
  (refresh s inp).mode = "oc" ↔
    ((refresh s inp).apiFailCount ≥ 3 ∧ s.apiSuccessCount > 5) ∨
    (inp.kubeReachable = true ∧ inp.ocNodeCount ≥ inp.expectedNodes)

/- ---------------------------------------------------------------------
   IEEE-754 binary64 model.  Python computes the SOURCE_B percentage
   (monitor.py lines 484-486) and the memory percentage (line 1162) in
   double-precision floats.  Each Python float operation (int/int true
   division, float*int product, float+float sum) produces the correctly
   rounded binary64 value of the exact result, rounding to nearest with
   ties to even, with subnormal quantization below 2^-1022.  That is
   modelled here exactly, over integers: a float value is an explicit
   dyadic pair (m, p) standing for m * 2^p, and every operation re-rounds
   the exact rational result.  (Overflow to infinity and the OverflowError
   Python raises when converting astronomically large integers cannot
   occur in the percentage pipeline, whose values stay in [0, 100], and
   are not modelled.)
--------------------------------------------------------------------- -/

/-- Fuel-driven binary length: `bitLenF fuel n` is the number of binary
digits of `n` provided `n ≤ fuel` (0 for 0). -/
def bitLenF : Nat → Nat → Nat
  | 0, _ => 0
  | fuel + 1, n => if n = 0 then 0 else bitLenF fuel (n / 2) + 1

/-- Number of binary digits of `n`: for `n ≥ 1`,
`2 ^ (bitLen n - 1) ≤ n < 2 ^ bitLen n`. -/
def bitLen (n : Nat) : Nat := bitLenF n n

/-- `ratExpN n d` is the binade exponent `e` with `2^e ≤ n/d < 2^(e+1)`
of a positive rational `n/d` (`n, d ≥ 1`). -/
def ratExpN (n d : Nat) : Int :=
  let c : Int := (bitLen n : Int) - (bitLen d : Int)
  if 0 ≤ c then
    if d * 2 ^ c.toNat ≤ n then c else c - 1
  else
    if d ≤ n * 2 ^ (-c).toNat then c else c - 1

/-- Round half to even of the rational `N / D` (`D > 0`), on integers via
Euclidean division. -/
def rhe (N D : Int) : Int :=
  let q := N.ediv D
  let r := N.emod D
  if 2 * r < D then q
  else if D < 2 * r then q + 1
  else if q % 2 = 0 then q else q + 1

/-- Quantum exponent of the binary64 value holding `n / d`: 52 bits below
the binade exponent in the normal range, the fixed subnormal quantum
`2^-1074` below it. -/
def quantumExp (n d : Int) : Int :=
  let e := ratExpN n.natAbs d.natAbs
  if -1022 ≤ e then e - 52 else -1074

/-- Correctly rounded binary64 value of `n / d` for `d > 0`: the exact
quotient is rounded half-to-even at the quantum; result is the dyadic
pair (mantissa, quantum exponent). -/
def roundRatPos (n d : Int) : Int × Int :=
  if n = 0 then (0, 0)
  else
    let p := quantumExp n d
    if 0 ≤ p then (rhe n (d * 2 ^ p.toNat), p)
    else (rhe (n * 2 ^ (-p).toNat) d, p)

/-- Correctly rounded binary64 value of `n / d` (`d ≠ 0`), normalizing the
sign of the denominator; rounding to nearest-even is symmetric under
negation, so this covers negative values (used by the memory check). -/
def roundRat (n d : Int) : Int × Int :=
  if d < 0 then roundRatPos (-n) (-d) else roundRatPos n d

/-- Exact rational value of a dyadic pair. -/
def fval (x : Int × Int) : ℚ := (x.1 : ℚ) * 2 ^ x.2

/-- Python `a / b` on non-negative integers: the correctly rounded
binary64 quotient. -/
def flDivNat (a b : Nat) : Int × Int := roundRat (a : Int) (b : Int)

/-- Python `x * k` for a float `x` and small non-negative int `k` (30, 70,
100 here, all exactly representable): the exact dyadic product, re-rounded
to binary64. -/
def dyadicMulNat (x : Int × Int) (k : Nat) : Int × Int :=
  if 0 ≤ x.2 then roundRat (x.1 * (k : Int) * 2 ^ x.2.toNat) 1
  else roundRat (x.1 * (k : Int)) (2 ^ (-x.2).toNat)

/-- Python `x + y` on floats: the exact dyadic sum at the smaller quantum,
re-rounded to binary64. -/
def flAdd (x y : Int × Int) : Int × Int :=
  let p := min x.2 y.2
  let m := x.1 * 2 ^ (x.2 - p).toNat + y.1 * 2 ^ (y.2 - p).toNat
  if 0 ≤ p then roundRat (m * 2 ^ p.toNat) 1 else roundRat m (2 ^ (-p).toNat)

/-- Python `int(x)` on a float: truncation toward zero. -/
def truncF (x : Int × Int) : Int :=
  if 0 ≤ x.2 then x.1 * 2 ^ x.2.toNat else Int.tdiv x.1 (2 ^ (-x.2).toNat)

/- ---------------------------------------------------------------------
   ProgressAggregator for SOURCE_B: `refresh_oc_mode`
   (monitor.py lines 457-503).
--------------------------------------------------------------------- -/

/-- One entry of `status.conditions` on a node or cluster operator, with
the two fields the monitor reads (`c.get("type")`, `c.get("status")`);
an absent key is modelled by the empty string. -/
structure KubeCondition where
  type : String
  status : String
deriving DecidableEq

/-- A node as consumed by `refresh_oc_mode`: only
`status.conditions` is read for the ready count. -/
structure KubeNode where
  conditions : List KubeCondition
deriving DecidableEq

/-- A cluster operator as consumed by `refresh_oc_mode`: only
`status.conditions` is read for the available count. -/
structure KubeOperator where
  conditions : List KubeCondition
deriving DecidableEq

/-- `any(c.get("type") == "Ready" and c.get("status") == "True" ...)`
(monitor.py lines 470-473). -/
def nodeReady (n : KubeNode) : Bool :=
  n.conditions.any fun c => c.type == "Ready" && c.status == "True"

/-- `any(c.get("type") == "Available" and c.get("status") == "True" ...)`
(monitor.py lines 477-480). -/
def opAvailable (o : KubeOperator) : Bool :=
  o.conditions.any fun c => c.type == "Available" && c.status == "True"

/-- `ready_nodes` (monitor.py line 470). -/
def readyCount (nodes : List KubeNode) : Nat := nodes.countP fun n => nodeReady n

/-- `available_ops` (monitor.py line 477). -/
def availCount (ops : List KubeOperator) : Nat := ops.countP fun o => opAvailable o

/-- `node_pct = (ready_nodes / total_nodes * 30) if total_nodes > 0 else 0`
(monitor.py line 484): float division then float product by 30, each
correctly rounded to binary64; the zero of the else branch is exact. -/
def nodeTermF (ready total : Nat) : Int × Int :=
  if 0 < total then dyadicMulNat (flDivNat ready total) 30 else (0, 0)

/-- `op_pct = (available_ops / total_ops * 70) if total_ops > 0 else 0`
(monitor.py line 485), same float semantics with weight 70. -/
def opTermF (avail total : Nat) : Int × Int :=
  if 0 < total then dyadicMulNat (flDivNat avail total) 70 else (0, 0)

/-- `total_pct = int(node_pct + op_pct)` (monitor.py line 486): one float
addition, then Python `int()` truncation toward zero. -/
def totalPct (ready totalN avail totalO : Nat) : Int :=
  truncF (flAdd (nodeTermF ready totalN) (opTermF avail totalO))

/-- The synthesized SOURCE_B percentage of `refresh_oc_mode` for given node
and operator lists (monitor.py lines 470-486). -/
def ocPercent (nodes : List KubeNode) (ops : List KubeOperator) : Int :=
  totalPct (readyCount nodes) nodes.length (availCount ops) ops.length

/-- The specification's formula for claim C2, written from the spec's own
words: `0.30 * (readyNodes/totalNodes) + 0.70 * (availableOperators/
totalOperators)` expressed over 100, with a zero term whenever the
corresponding total is zero, over exact rationals; to be compared with
the float computation `totalPct`. -/
def specPercentQ (ready totalN avail totalO : Nat) : ℚ :=
  ((3 : ℚ) / 10 * (if 0 < totalN then (ready : ℚ) / (totalN : ℚ) else 0) +
    (7 : ℚ) / 10 * (if 0 < totalO then (avail : ℚ) / (totalO : ℚ) else 0)) * 100

/-- The (status, percent) pair computed by `refresh_oc_mode` when nodes are
visible; with no nodes the function returns early showing CONNECTING and
computes neither (monitor.py lines 462-493). -/
def refreshOcView (nodes : List KubeNode) (ops : List KubeOperator) :
    Option (String × Int) :=
  if nodes.isEmpty then none
  else if ocPercent nodes ops ≥ 100 then some ("installed", ocPercent nodes ops)
  else some ("installing", ocPercent nodes ops)

/- ---------------------------------------------------------------------
   Hostname resolution: `get_hostname` (monitor.py lines 544-593).
--------------------------------------------------------------------- -/

/-- One entry of `inventory["interfaces"]` with the fields `get_hostname`
reads: `mac_address` (absent modelled as `""`) and `ipv4_addresses`. -/
structure NetIface where
  mac_address : String
  ipv4_addresses : List String
deriving DecidableEq

/-- A parsed host inventory: `hostname` (absent or `None` modelled as `""`)
and `interfaces`. -/
structure HostInventory where
  hostname : String
  interfaces : List NetIface
deriving DecidableEq

/-- A host record from the orchestration API, restricted to the fields
`get_hostname` reads.  `inventory = none` models a JSON string that fails
to parse (the except branch); a missing inventory key parses as `{}`,
i.e. `some ⟨"", []⟩`.  Falsy string fields are `""`. -/
structure ApiHost where
  requested_hostname : String
  inventory : Option HostInventory
  role : String
  suggested_role : String
  bootstrap : Bool
  id : String
deriving DecidableEq

/-- The hostname maps loaded by `_load_agent_config` (monitor.py lines
518-542): `hostname_by_mac` keyed by lower-cased MAC, plus the ordered
role lists. -/
structure AgentConfig where
  hostname_by_mac : List (String × String)
  masters : List String
  workers : List String
deriving DecidableEq

/-- The interface scan inside `get_hostname` (monitor.py lines 557-571):
for each interface in order, a MAC match in `hostname_by_mac` wins and
stops the loop; otherwise, if the interface lists an IPv4 address, its
first address (before the `/`) is taken and the loop also stops.  Note
the IP fallback sits inside the per-interface loop, so an earlier
interface's address is taken before a later interface's MAC is examined. -/
def scanIfaces (byMac : List (String × String)) : List NetIface → String
  | [] => ""
  | i :: rest =>
    match byMac.lookup (lowerStr i.mac_address) with
    | some h => h
    | none =>
      match i.ipv4_addresses with
      | [] => scanIfaces byMac rest
      | a :: _ => beforeSlash a

/-- `get_hostname` (monitor.py lines 544-593): requested hostname, then
inventory hostname, then the interface scan, then the role/bootstrap
fallback, then the `"<role>-<id-prefix>"` placeholder, finally
`"unknown"`.  The `source` variable of the original is only logged and is
not modelled. -/
def get_hostname (cfg : AgentConfig) (host : ApiHost) : String :=
  let h1 := host.requested_hostname
  let h2 :=
    if h1 ≠ "" then h1
    else
      match host.inventory with
      | none => h1
      | some inv =>
        if inv.hostname ≠ "" then inv.hostname
        else scanIfaces cfg.hostname_by_mac inv.interfaces
  let h3 :=
    if h2 = "" ∨ h2 = "unknown" then
      let role := if host.role ≠ "" then host.role else host.suggested_role
      let hb :=
        if role = "master" ∧ cfg.masters ≠ [] ∧ host.bootstrap = true then
          cfg.masters.headD ""
        else h2
      if hb = "" then
        (if role ≠ "" then role ++ "-" ++ takeStr 8 host.id else hb)
      else hb
    else h2
  if h3 = "" then "unknown" else h3

/- ---------------------------------------------------------------------
   NodeDiagnosticProbe: `_ssh_check_node` (monitor.py lines 1071-1178).
--------------------------------------------------------------------- -/

/-- A diagnostic finding `(severity, message)`; severities are the strings
`"ok" | "info" | "warning" | "error" | "detail"` used by the source. -/
abbrev Finding := String × String

/-- Outcome of the `subprocess.run(["ssh", ...])` call in
`_ssh_check_node`: a timeout (`subprocess.TimeoutExpired`), some other
exception with its rendered message, or a completed process with return
code and stdout. -/
inductive SshResult
  | timeout
  | sshError (msg : String)
  | completed (returncode : Int) (stdout : String)
deriving DecidableEq

/-- Section map of the probe output (monitor.py lines 1091-1098): a dict
from section name to its lines, modelled as an association list with
in-place update. -/
def updateSection (m : List (String × List String)) (k : String)
    (v : List String) : List (String × List String) :=
  match m with
  | [] => [(k, v)]
  | (k', v') :: rest =>
    if k' == k then (k, v) :: rest else (k', v') :: updateSection rest k v

/-- `sections.get(name, [])`. -/
def getSection (m : List (String × List String)) (k : String) : List String :=
  match m with
  | [] => []
  | (k', v) :: rest => if k' == k then v else getSection rest k

/-- The section-parsing loop (monitor.py lines 1092-1098): a sentinel line
`===NAME===` resets the named section and makes it current; other lines
are appended to the current section.  `elif current:` means lines are
dropped both before any sentinel and under an empty section name. -/
def parseSectionsAux : List String → List (String × List String) →
    Option String → List (String × List String)
  | [], m, _ => m
  | l :: rest, m, cur =>
    if headerOf l then
      let k := stripEq l
      parseSectionsAux rest (updateSection m k []) (some k)
    else
      match cur with
      | some k =>
        if k == "" then parseSectionsAux rest m cur
        else parseSectionsAux rest (updateSection m k (getSection m k ++ [l])) cur
      | none => parseSectionsAux rest m cur

/-- Sections of the probe output lines. -/
def parseSections (lines : List String) : List (String × List String) :=
  parseSectionsAux lines [] none

/-- Kubelet check (monitor.py lines 1100-1103). -/
def kubeletBlock (sections : List (String × List String)) : List Finding :=
  let kubelet := trimStr (joinNl (getSection sections "KUBELET"))
  if kubelet ≠ "active" then [("error", "kubelet: " ++ kubelet)] else []

/-- Crio check (monitor.py lines 1105-1108). -/
def crioBlock (sections : List (String × List String)) : List Finding :=
  let crio := trimStr (joinNl (getSection sections "CRIO"))
  if crio ≠ "active" then [("error", "crio: " ++ crio)] else []

/-- `[l.strip() for l in sections.get("ISSUES", []) if l.strip()]`
(monitor.py line 1111). -/
def issueLines (sections : List (String × List String)) : List String :=
  (getSection sections "ISSUES").filterMap fun l =>
    let t := trimStr l
    if t = "" then none else some t

/-- Certificate-bucket test on a journal line (monitor.py line 1117). -/
def isCertIssue (l : String) : Bool :=
  containsSub (lowerStr l) "x509" || containsSub (lowerStr l) "certificate" ||
    containsSub (lowerStr l) "crypto"

/-- Image-pull-bucket test on a journal line (monitor.py line 1119);
applied after the certificate test fails, per the if/elif chain. -/
def isPullIssue (l : String) : Bool :=
  containsSub (lowerStr l) "errimagepull" ||
    containsSub (lowerStr l) "imagepullbackoff" ||
    containsSub (lowerStr l) "manifest unknown"

/-- TLS/cert findings (monitor.py lines 1124-1127). -/
def certBlock (sections : List (String × List String)) : List Finding :=
  let cert := (issueLines sections).filter isCertIssue
  if cert.isEmpty then []
  else
    ("error", "TLS/cert errors (" ++ toString cert.length ++ ")") ::
      (lastN 2 cert).map fun l => ("detail", "  " ++ takeStr 120 l)

/-- Image-pull findings (monitor.py lines 1128-1131). -/
def pullBlock (sections : List (String × List String)) : List Finding :=
  let pull := (issueLines sections).filter fun l => !isCertIssue l && isPullIssue l
  if pull.isEmpty then []
  else
    ("error", "Image pull errors (" ++ toString pull.length ++ ")") ::
      (lastN 2 pull).map fun l => ("detail", "  " ++ takeStr 120 l)

/-- Other-journal-line findings (monitor.py lines 1132-1134). -/
def otherBlock (sections : List (String × List String)) : List Finding :=
  let other := (issueLines sections).filter fun l => !isCertIssue l && !isPullIssue l
  (lastN 2 other).map fun l => ("warning", "  " ++ takeStr 120 l)

/-- MachineConfig check (monitor.py lines 1137-1141). -/
def mcBlock (sections : List (String × List String)) : List Finding :=
  let mc := trimStr (joinNl (getSection sections "MC"))
  if mc = "not-found" then [("warning", "MachineConfig: currentconfig not found")]
  else if mc ≠ "" then [("info", "MC: " ++ mc)]
  else []

/-- The parsed use percentage of one `df` line: `int(parts[4].rstrip('%'))`
when the line has at least 5 whitespace-separated fields, `none` when the
field count is short or `int()` raises (monitor.py lines 1145-1148). -/
def parsedUse (line : String) : Option Int :=
  let parts := pySplit line
  if parts.length ≥ 5 then pyInt (rstripPercent (parts.getD 4 "")) else none

/-- The finding produced for one `df` line (monitor.py lines 1144-1153):
a warning when the parsed use percentage exceeds 85, naming the mount
point in field 6 when present. -/
def diskLineFinding (line : String) : Option Finding :=
  match parsedUse line with
  | none => none
  | some usePct =>
    let parts := pySplit line
    let mount := if parts.length > 5 then parts.getD 5 "" else ""
    if usePct > 85 then
      some ("warning", "Disk " ++ mount ++ ": " ++ toString usePct ++ "% used")
    else none

/-- Disk findings of the DISK section (monitor.py lines 1144-1153). -/
def diskBlock (sections : List (String × List String)) : List Finding :=
  (getSection sections "DISK").filterMap diskLineFinding

/-- The finding produced for one `free -m` line (monitor.py lines
1156-1166): total from field 2, used from field 3; a zero total raises
ZeroDivisionError which the except swallows; the percentage
`int(used / total * 100)` is the truncation of the binary64 quotient
multiplied (in binary64) by 100. -/
def memLineFinding (line : String) : Option Finding :=
  let parts := pySplit line
  if parts.length ≥ 3 then
    match pyInt (parts.getD 1 ""), pyInt (parts.getD 2 "") with
    | some total, some used =>
      if total = 0 then none
      else
        let pct := truncF (dyadicMulNat (roundRat used total) 100)
        if pct > 90 then
          some ("warning", "Memory: " ++ toString pct ++ "% (" ++
            toString used ++ "/" ++ toString total ++ " MB)")
        else none
    | _, _ => none
  else none

/-- Memory findings of the MEM section (monitor.py lines 1156-1166). -/
def memBlock (sections : List (String × List String)) : List Finding :=
  (getSection sections "MEM").filterMap memLineFinding

/-- Non-running-container findings (monitor.py lines 1169-1173). -/
def containersBlock (sections : List (String × List String)) : List Finding :=
  let cs := (getSection sections "CONTAINERS").filterMap fun l =>
    let t := trimStr l
    if t = "" then none else some t
  if cs.isEmpty then []
  else
    ("warning", "Non-running containers: " ++ toString cs.length) ::
      (lastN 3 cs).map fun l => ("detail", "  " ++ takeStr 120 l)

/-- The full classification of a completed probe's stdout (monitor.py
lines 1090-1173), findings in source order. -/
def classifyOutput (out : String) : List Finding :=
  let sections := parseSections (splitLinesStr out)
  kubeletBlock sections ++ crioBlock sections ++ certBlock sections ++
    pullBlock sections ++ otherBlock sections ++ mcBlock sections ++
    diskBlock sections ++ memBlock sections ++ containersBlock sections

/-- `_ssh_check_node` (monitor.py lines 1071-1178) as a function of the
subprocess outcome.  The Python method never raises: TimeoutExpired and
other exceptions are caught into single error findings; a nonzero exit
with empty stdout is the single "SSH unreachable" finding; otherwise the
output is classified, and an empty classification becomes the single ok
finding. -/
def ssh_check_node : SshResult → List Finding
  | SshResult.timeout => [("error", "SSH timeout (15s)")]
  | SshResult.sshError msg => [("error", "SSH failed: " ++ msg)]
  | SshResult.completed rc out =>
    if rc ≠ 0 ∧ out = "" then [("error", "SSH unreachable")]
    else
      let findings := classifyOutput out
      if findings.isEmpty then [("ok", "No issues detected")] else findings

/- ---------------------------------------------------------------------
   DiagnosticScheduler reentrancy guard: `run_debug_check` and
   `_schedule_debug_check` (monitor.py lines 1029-1069).
--------------------------------------------------------------------- -/

/-- The guard-relevant state: `self.debug_checking` plus a ghost count of
diagnostic cycles currently in flight (incremented when `run_debug_check`
passes the guard and spawns `do_checks`, decremented when that cycle
folds its results). -/
structure DebugState where
  debugChecking : Bool
  running : Nat
deriving DecidableEq

/-- Events acting on the guard: the manual "Check Now" button, the
periodic timer with the auto-check flag it reads, and a running cycle
folding its results. -/
inductive DebugEvent
  | manual
  | timer (auto : Bool)
  | complete
deriving DecidableEq

/-- `run_debug_check` (monitor.py lines 1035-1039): return immediately when
a cycle is in flight, otherwise set the flag and start a cycle. -/
def run_debug_check (s : DebugState) : DebugState :=
  if s.debugChecking then s else ⟨true, s.running + 1⟩

/-- One event step: the manual button calls `run_debug_check` directly; the
timer (`_schedule_debug_check`, lines 1029-1033) calls it only when
auto-check is enabled; a completing cycle stores its findings and clears
the flag (`do_checks`, lines 1064-1066). -/
def debugStep (s : DebugState) : DebugEvent → DebugState
  | DebugEvent.manual => run_debug_check s
  | DebugEvent.timer auto => if auto then run_debug_check s else s
  | DebugEvent.complete =>
    if 0 < s.running then ⟨false, s.running - 1⟩ else s

/-- The guard state reached from startup (`debug_checking = False`,
monitor.py line 107) by a sequence of events. -/
def debugRun (evs : List DebugEvent) : DebugState :=
  evs.foldl debugStep ⟨false, 0⟩

/- ---------------------------------------------------------------------
   EventStream: `start_event_streamer` (monitor.py lines 1332-1376) and
   the dedup set `self.seen_event_ids` (line 95).
--------------------------------------------------------------------- -/

/-- One event from the `/events` feed with the fields the streamer reads:
`event_id` (`none` when the key is missing or null), `message`,
`severity`. -/
structure ApiEvent where
  event_id : Option String
  message : String
  severity : String
deriving DecidableEq

/-- The streamer's state: the dedup set `self.seen_event_ids` and the
sequence of events emitted to the side-channel log, in order. -/
structure StreamState where
  seen : List String
  emitted : List ApiEvent
deriving DecidableEq

/-- Startup state: `self.seen_event_ids = set()` and an empty event log. -/
def initStream : StreamState := ⟨[], []⟩

/-- Processing of one polled event (monitor.py lines 1357-1364):
`if event_id and event_id not in self.seen_event_ids:` add the id to the
set and emit via `log_event`; falsy ids (missing, null or empty) and
already-seen ids change nothing. -/
def processEvent (s : StreamState) (e : ApiEvent) : StreamState :=
  match e.event_id with
  | some i =>
    if i ≠ "" ∧ i ∉ s.seen then ⟨i :: s.seen, s.emitted ++ [e]⟩ else s
  | none => s

/-- One polling cycle over a batch of events (the `for event in events`
loop). -/
def processBatch (s : StreamState) (b : List ApiEvent) : StreamState :=
  b.foldl processEvent s

/-- A sequence of polling cycles within one process lifetime, from the
startup state. -/
def processBatches (batches : List (List ApiEvent)) : StreamState :=
  batches.foldl processBatch initStream

/-- Number of emissions carrying a given event id. -/
def countEmit (s : StreamState) (i : String) : Nat :=
  s.emitted.countP fun e => e.event_id == some i

/- ---------------------------------------------------------------------
   Helper lemmas.
--------------------------------------------------------------------- -/

/-- Concrete node list with 2 of 4 nodes Ready, for the C2 instance. -/
def nodes63 : List KubeNode :=
  List.replicate 2 ⟨[⟨"Ready", "True"⟩]⟩ ++ List.replicate 2 ⟨[⟨"Ready", "False"⟩]⟩

/-- Concrete operator list with 20 of 29 operators Available, for the C2
instance. -/
def ops63 : List KubeOperator :=
  List.replicate 20 ⟨[⟨"Available", "True"⟩]⟩ ++ List.replicate 9 ⟨[]⟩

/-- Concrete node list with 4 of 4 nodes Ready, for the C3 instance. -/
def nodes100 : List KubeNode := List.replicate 4 ⟨[⟨"Ready", "True"⟩]⟩

/-- Concrete operator list with 29 of 29 operators Available, for the C3
instance. -/
def ops100 : List KubeOperator := List.replicate 29 ⟨[⟨"Available", "True"⟩]⟩


lemma bitLenF_zero (fuel : Nat) : bitLenF fuel 0 = 0 := by
  cases fuel <;> rfl

lemma bitLenF_spec : ∀ fuel n, n ≤ fuel → 1 ≤ n →
    2 ^ (bitLenF fuel n - 1) ≤ n ∧ n < 2 ^ (bitLenF fuel n) := by
  intro fuel
  induction fuel with
  | zero => intro n h1 h2; omega
  | succ f ih =>
    intro n hle h1
    rw [bitLenF, if_neg (by omega)]
    by_cases h2 : n = 1
    · subst h2
      norm_num [show (1 : Nat) / 2 = 0 from rfl, bitLenF_zero]
    · have hm1 : 1 ≤ n / 2 := by omega
      have hm2 : n / 2 ≤ f := by omega
      obtain ⟨ihl, ihu⟩ := ih (n / 2) hm2 hm1
      have hb1 : 1 ≤ bitLenF f (n / 2) := by
        by_contra hc
        push_neg at hc
        have hz : bitLenF f (n / 2) = 0 := by omega
        rw [hz] at ihu
        simp at ihu
        omega
      set b := bitLenF f (n / 2) with hb
      constructor
      · have h3 : 2 ^ (b - 1) * 2 ≤ (n / 2) * 2 := Nat.mul_le_mul_right 2 ihl
        have h4 : 2 ^ (b - 1) * 2 = 2 ^ b := by
          rw [← Nat.pow_succ]
          congr 1
          omega
        have h5 : 2 ^ (b + 1 - 1) = 2 ^ b := by congr 1
        omega
      · have h4 : 2 ^ (b + 1) = 2 ^ b * 2 := by rw [Nat.pow_succ]
        omega

lemma bitLen_spec {n : Nat} (h : 1 ≤ n) :
    2 ^ (bitLen n - 1) ≤ n ∧ n < 2 ^ (bitLen n) :=
  bitLenF_spec n n le_rfl h

lemma bitLen_pos {n : Nat} (h : 1 ≤ n) : 1 ≤ bitLen n := by
  by_contra hc
  push_neg at hc
  have hz : bitLen n = 0 := by omega
  have := (bitLen_spec h).2
  rw [hz] at this
  simp at this
  omega

/-- The lower binade bound used by the rounding bound: the else branches
of `ratExpN` return `bitLen n - bitLen d - 1`, and
`2 ^ (bitLen n - bitLen d - 1) ≤ n / d` from the digit-count bounds. -/
lemma ratExp_aux {n d : Nat} (hn : 1 ≤ n) (hd : 1 ≤ d) :
    (2 : ℚ) ^ ((bitLen n : Int) - (bitLen d : Int) - 1) ≤ (n : ℚ) / (d : ℚ) := by
  obtain ⟨hnl, _⟩ := bitLen_spec hn
  obtain ⟨_, hdu⟩ := bitLen_spec hd
  have hbn := bitLen_pos hn
  have hsplit : (bitLen n : Int) - (bitLen d : Int) - 1 =
      ((bitLen n - 1 : Nat) : Int) - ((bitLen d : Nat) : Int) := by
    push_cast [Nat.cast_sub hbn]
    ring
  rw [hsplit, zpow_sub₀ (by norm_num : (2 : ℚ) ≠ 0), zpow_natCast, zpow_natCast]
  rw [div_le_div_iff₀ (by positivity) (by exact_mod_cast hd)]
  have h1 : (2 : Nat) ^ (bitLen n - 1) * d ≤ n * 2 ^ bitLen d := by
    calc 2 ^ (bitLen n - 1) * d ≤ n * d := Nat.mul_le_mul_right d hnl
      _ ≤ n * 2 ^ bitLen d := Nat.mul_le_mul_left n hdu.le
  exact_mod_cast h1

lemma ratExpN_le {n d : Nat} (hn : 1 ≤ n) (hd : 1 ≤ d) :
    (2 : ℚ) ^ (ratExpN n d) ≤ (n : ℚ) / (d : ℚ) := by
  have hdq : (0 : ℚ) < (d : ℚ) := by exact_mod_cast hd
  simp only [ratExpN]
  split
  · rename_i hc0
    split
    · rename_i htest
      rw [le_div_iff₀ hdq]
      have h1 : ((bitLen n : Int) - (bitLen d : Int)) =
          (((bitLen n : Int) - (bitLen d : Int)).toNat : Int) :=
        (Int.toNat_of_nonneg hc0).symm
      rw [h1, zpow_natCast]
      calc (2 : ℚ) ^ ((bitLen n : Int) - (bitLen d : Int)).toNat * d
          = ((2 ^ ((bitLen n : Int) - (bitLen d : Int)).toNat * d : Nat) : ℚ) := by
            push_cast
            ring
        _ ≤ (n : ℚ) := by
            exact_mod_cast (Nat.mul_comm d _ ▸ htest)
    · exact ratExp_aux hn hd
  · rename_i hc0
    split
    · rename_i htest
      have h1 : (bitLen n : Int) - (bitLen d : Int) =
          -(((-((bitLen n : Int) - (bitLen d : Int))).toNat : Int)) := by
        rw [Int.toNat_of_nonneg (by omega)]
        ring
      rw [h1, zpow_neg, zpow_natCast, inv_eq_one_div]
      rw [div_le_div_iff₀ (by positivity) hdq, one_mul]
      calc (d : ℚ) ≤ ((n * 2 ^ (-((bitLen n : Int) - (bitLen d : Int))).toNat : Nat) : ℚ) := by
            exact_mod_cast htest
        _ = (n : ℚ) * 2 ^ (-((bitLen n : Int) - (bitLen d : Int))).toNat := by
            push_cast
            ring
    · exact ratExp_aux hn hd

lemma rhe_nonneg {N D : Int} (hN : 0 ≤ N) (hD : 0 < D) : 0 ≤ rhe N D := by
  simp only [rhe]
  have hq : 0 ≤ N.ediv D := Int.ediv_nonneg hN hD.le
  split
  · exact hq
  · split
    · omega
    · split <;> omega

lemma rhe_le {N D k : Int} (hD : 0 < D) (h : N ≤ k * D) : rhe N D ≤ k := by
  simp only [rhe]
  have heq : D * (N.ediv D) + N.emod D = N := Int.ediv_add_emod N D
  have hr0 : 0 ≤ N.emod D := Int.emod_nonneg N (by omega)
  have hrD : N.emod D < D := Int.emod_lt_of_pos N hD
  have hq : N.ediv D ≤ k := by
    by_contra hc
    push_neg at hc
    have h2 : D * (k + 1) ≤ D * (N.ediv D) :=
      mul_le_mul_of_nonneg_left (by omega) hD.le
    nlinarith
  split
  · exact hq
  · rename_i h1
    rcases lt_or_eq_of_le hq with hlt | heqk
    · split
      · omega
      · split <;> omega
    · exfalso
      rw [heqk] at heq
      nlinarith
  
/- ---------------------------------------------------------------------
   C1: mode switch condition.
--------------------------------------------------------------------- -/

/-- C1 (corrected), counterexample to the claim as stated: with the monitor
in `"api"` mode after six successes, a successful poll where the
reachability probe succeeds and the visible node count (0) meets the
expected node count (0, an empty agent-config manifest) does NOT switch
the mode to `"oc"`, because the code additionally requires the expected
node count to be positive (monitor.py line 416); the claimed if-and-only-if
condition is therefore false at this input. -/
theorem C1_counterexample :
    ¬ claimC1At ⟨"api", 0, 6⟩ ⟨PollOutcome.success, true, 0, 0⟩ := by
  unfold claimC1At
  decide

/-- C1 (amended): a `refresh` cycle in `"api"` mode switches to `"oc"` if
and only if either the poll failed, bringing the consecutive-failure count
(after this failure) to at least 3 with more than 5 cumulative prior
successes, or the poll succeeded and the reachability probe succeeds and
the visible node count reaches the expected node count and the expected
node count is positive.  The reachability path is only evaluated on
successful polls, and a positive expected count is required.  Moreover the
mode never switches on the very first failure after zero successes. -/
theorem C1_mode_switch_amended :
    ∀ (s : ModeState) (inp : PollInput), s.mode = "api" →
      ((refresh s inp).mode = "oc" ↔
        (inp.outcome = PollOutcome.failure ∧ s.apiFailCount + 1 ≥ 3 ∧
          s.apiSuccessCount > 5) ∨
        (inp.outcome = PollOutcome.success ∧ inp.kubeReachable = true ∧
          inp.ocNodeCount ≥ inp.expectedNodes ∧ 0 < inp.expectedNodes)) ∧
      (inp.outcome = PollOutcome.failure → s.apiFailCount = 0 →
        s.apiSuccessCount = 0 → (refresh s inp).mode = "api") := by
  intro s inp hmode
  obtain ⟨o, kr, nc, en⟩ := inp
  cases o with
  | noToken =>
    refine ⟨?_, ?_⟩
    · unfold refresh
      rw [if_pos hmode]
      rw [hmode]
      simp
    · intro hfail
      simp at hfail
  | success =>
    refine ⟨?_, ?_⟩
    · unfold refresh
      rw [if_pos hmode]
      dsimp only
      split
      · rename_i hc
        simp [hc]
      · rename_i hc
        rw [hmode]
        simp [hc]
    · intro hfail
      simp at hfail
  | failure =>
    refine ⟨?_, ?_⟩
    · unfold refresh
      rw [if_pos hmode]
      dsimp only
      split
      · rename_i hc
        simp [hc]
      · rename_i hc
        rw [hmode]
        simp [hc]
        omega
    · intro _ hf0 hs0
      unfold refresh
      rw [if_pos hmode]
      dsimp only
      have hng : ¬ (s.apiFailCount + 1 ≥ 3 ∧ s.apiSuccessCount > 5) := by
        rw [hf0, hs0]
        omega
      rw [if_neg hng]
      exact hmode

/-- Witness for C1: from state (api, 2 consecutive failures, 6 successes) a
third consecutive failure switches the mode. -/
theorem C1_mode_switch_witness :
    (((refresh ⟨"api", 2, 6⟩ ⟨PollOutcome.failure, false, 0, 3⟩).mode = "oc" ↔
        (PollOutcome.failure = PollOutcome.failure ∧ 2 + 1 ≥ 3 ∧ 6 > 5) ∨
        (PollOutcome.failure = PollOutcome.success ∧ false = true ∧ 0 ≥ 3 ∧ 0 < 3)) ∧
      (PollOutcome.failure = PollOutcome.failure → 2 = 0 → 6 = 0 →
        (refresh ⟨"api", 2, 6⟩ ⟨PollOutcome.failure, false, 0, 3⟩).mode = "api")) :=
  C1_mode_switch_amended ⟨"api", 2, 6⟩ ⟨PollOutcome.failure, false, 0, 3⟩ rfl

/- ---------------------------------------------------------------------
   C2: synthesized SOURCE_B percentage.  Bound lemmas for the binary64
   rounding: a correctly rounded non-negative value bounded by a small
   representable integer c stays non-negative and bounded by c (because c
   is an integer multiple of the rounding quantum).
--------------------------------------------------------------------- -/

lemma fval_pair (mv pv : Int) : fval (mv, pv) = (mv : ℚ) * 2 ^ pv := rfl

lemma quantumExp_nonpos {n d : Int} (he : ratExpN n.natAbs d.natAbs ≤ 52) :
    quantumExp n d ≤ 0 := by
  simp only [quantumExp]
  split <;> omega

lemma roundRatPos_mantissa_nonneg {n d : Int} (hn : 0 ≤ n) (hd : 0 < d) :
    0 ≤ (roundRatPos n d).1 := by
  by_cases h0 : n = 0
  · simp [roundRatPos, h0]
  · simp only [roundRatPos]
    rw [if_neg h0]
    by_cases hp : 0 ≤ quantumExp n d
    · rw [if_pos hp]
      exact rhe_nonneg hn (by positivity)
    · rw [if_neg hp]
      exact rhe_nonneg (by positivity) hd

lemma roundRatPos_le {n d c : Int} (hn : 0 ≤ n) (hd : 0 < d) (hc1 : 1 ≤ c)
    (hc2 : c ≤ 2 ^ 52) (h : n ≤ c * d) : fval (roundRatPos n d) ≤ (c : ℚ) := by
  by_cases h0 : n = 0
  · have hcq : (0 : ℚ) ≤ (c : ℚ) := by exact_mod_cast by omega
    simp [roundRatPos, h0, fval, hcq]
  · have hn1 : 1 ≤ n := by omega
    have hdq : (0 : ℚ) < (d : ℚ) := by exact_mod_cast hd
    simp only [roundRatPos]
    rw [if_neg h0]
    set e := ratExpN n.natAbs d.natAbs with hedef
    set p : Int := quantumExp n d with hpdef
    have hna : ((n.natAbs : Nat) : ℚ) = (n : ℚ) := by
      rw [Int.cast_natAbs, abs_of_nonneg hn]
    have hda : ((d.natAbs : Nat) : ℚ) = (d : ℚ) := by
      rw [Int.cast_natAbs, abs_of_nonneg hd.le]
    have hev : (2 : ℚ) ^ e ≤ (n : ℚ) / (d : ℚ) := by
      have := ratExpN_le (n := n.natAbs) (d := d.natAbs) (by omega) (by omega)
      rwa [hna, hda] at this
    have hnd_le : (n : ℚ) / (d : ℚ) ≤ (c : ℚ) := by
      rw [div_le_iff₀ hdq]
      exact_mod_cast h
    have he52 : e ≤ 52 := by
      by_contra hcon
      push_neg at hcon
      have h1 : (2 : ℚ) ^ (53 : ℤ) ≤ (2 : ℚ) ^ e := by
        apply zpow_le_zpow_right₀ (by norm_num) (by omega)
      have h2 : (2 : ℚ) ^ (53 : ℤ) ≤ (c : ℚ) := le_trans h1 (le_trans hev hnd_le)
      have h3 : (c : ℚ) ≤ (2 : ℚ) ^ (52 : ℤ) := by
        have h4 : (c : ℚ) ≤ (((2 : ℤ) ^ (52 : ℕ) : ℤ) : ℚ) := by exact_mod_cast hc2
        rw [show ((52 : ℤ)) = ((52 : ℕ) : ℤ) from rfl, zpow_natCast]
        push_cast at h4
        exact h4
      have h5 : (2 : ℚ) ^ (53 : ℤ) ≤ (2 : ℚ) ^ (52 : ℤ) := le_trans h2 h3
      rw [show ((53 : ℤ)) = ((53 : ℕ) : ℤ) from rfl,
        show ((52 : ℤ)) = ((52 : ℕ) : ℤ) from rfl, zpow_natCast, zpow_natCast] at h5
      norm_num at h5
    have hple : p ≤ 0 := by
      rw [hpdef]
      exact quantumExp_nonpos (by rw [← hedef]; exact he52)
    by_cases hp0 : 0 ≤ p
    · have hpz : p = 0 := le_antisymm hple hp0
      rw [if_pos hp0, hpz]
      rw [fval_pair]
      simp only [Int.toNat_zero, pow_zero, mul_one, zpow_zero]
      have hle := rhe_le hd (by linarith : n ≤ c * d)
      exact_mod_cast hle
    · rw [if_neg hp0]
      push_neg at hp0
      have hmp : (((-p).toNat : Nat) : ℤ) = -p := Int.toNat_of_nonneg (by omega)
      have hN : n * 2 ^ (-p).toNat ≤ (c * 2 ^ (-p).toNat) * d := by
        calc n * 2 ^ (-p).toNat ≤ (c * d) * 2 ^ (-p).toNat :=
              mul_le_mul_of_nonneg_right h (by positivity)
          _ = (c * 2 ^ (-p).toNat) * d := by ring
      have hle := rhe_le hd hN
      rw [fval_pair]
      have h2 : ((rhe (n * 2 ^ (-p).toNat) d : ℤ) : ℚ) ≤ ((c * 2 ^ (-p).toNat : ℤ) : ℚ) := by
        exact_mod_cast hle
      calc ((rhe (n * 2 ^ (-p).toNat) d : ℤ) : ℚ) * 2 ^ p
          ≤ ((c * 2 ^ (-p).toNat : ℤ) : ℚ) * 2 ^ p :=
            mul_le_mul_of_nonneg_right h2 (by positivity)
        _ = (c : ℚ) * ((2 : ℚ) ^ (((-p).toNat : Nat) : ℤ) * 2 ^ p) := by
            push_cast
            rw [zpow_natCast]
            ring
        _ = (c : ℚ) := by
            rw [← zpow_add₀ (by norm_num : (2 : ℚ) ≠ 0), hmp]
            simp

lemma roundRat_eq_pos {n d : Int} (hd : 0 < d) : roundRat n d = roundRatPos n d := by
  simp only [roundRat]
  rw [if_neg (by omega)]

lemma flDivNat_bounds {r t : Nat} (hrt : r ≤ t) (ht : 0 < t) :
    0 ≤ (flDivNat r t).1 ∧ fval (flDivNat r t) ≤ 1 := by
  have hd : (0 : ℤ) < (t : ℤ) := by exact_mod_cast ht
  rw [flDivNat, roundRat_eq_pos hd]
  constructor
  · exact roundRatPos_mantissa_nonneg (by positivity) hd
  · have h3 : fval (roundRatPos (r : ℤ) (t : ℤ)) ≤ ((1 : ℤ) : ℚ) :=
      roundRatPos_le (by positivity) hd le_rfl (by norm_num)
        (by
          have h4 : (r : ℤ) ≤ (t : ℤ) := by exact_mod_cast hrt
          omega)
    simpa using h3

lemma dyadicMulNat_bounds {x : Int × Int} {k : Nat} {c : Int}
    (hm : 0 ≤ x.1) (hc1 : 1 ≤ c) (hc2 : c ≤ 2 ^ 52)
    (hv : fval x * (k : ℚ) ≤ (c : ℚ)) :
    0 ≤ (dyadicMulNat x k).1 ∧ fval (dyadicMulNat x k) ≤ (c : ℚ) := by
  simp only [dyadicMulNat]
  by_cases hp : 0 ≤ x.2
  · rw [if_pos hp, roundRat_eq_pos one_pos]
    have hcast : ((x.1 * (k : ℤ) * 2 ^ x.2.toNat : ℤ) : ℚ) = fval x * (k : ℚ) := by
      unfold fval
      push_cast
      rw [← zpow_natCast (2 : ℚ) x.2.toNat, Int.toNat_of_nonneg hp]
      ring
    constructor
    · exact roundRatPos_mantissa_nonneg (by positivity) one_pos
    · apply roundRatPos_le (by positivity) one_pos hc1 hc2
      rw [mul_one]
      exact_mod_cast hcast ▸ hv
  · rw [if_neg hp, roundRat_eq_pos (by positivity)]
    push_neg at hp
    have hm2 : (((-x.2).toNat : Nat) : ℤ) = -x.2 := Int.toNat_of_nonneg (by omega)
    have hcast : ((x.1 * (k : ℤ) : ℤ) : ℚ) = fval x * (k : ℚ) * 2 ^ ((-x.2).toNat : ℕ) := by
      unfold fval
      push_cast
      rw [show ((x.1 : ℚ)) * 2 ^ x.2 * (k : ℚ) * 2 ^ ((-x.2).toNat : ℕ) =
        (x.1 : ℚ) * (k : ℚ) * (2 ^ x.2 * 2 ^ (((-x.2).toNat : ℕ) : ℤ)) from by
          rw [zpow_natCast]
          ring]
      rw [← zpow_add₀ (by norm_num : (2 : ℚ) ≠ 0), hm2]
      simp
    constructor
    · exact roundRatPos_mantissa_nonneg (by positivity) (by positivity)
    · apply roundRatPos_le (by positivity) (by positivity) hc1 hc2
      have hq : fval x * (k : ℚ) * 2 ^ ((-x.2).toNat : ℕ) ≤
          (c : ℚ) * 2 ^ ((-x.2).toNat : ℕ) :=
        mul_le_mul_of_nonneg_right hv (by positivity)
      rw [← hcast] at hq
      exact_mod_cast hq

lemma flAdd_bounds {x y : Int × Int} {cx cy : Int}
    (hmx : 0 ≤ x.1) (hmy : 0 ≤ y.1) (hvx : fval x ≤ (cx : ℚ)) (hvy : fval y ≤ (cy : ℚ))
    (hc1 : 1 ≤ cx + cy) (hc2 : cx + cy ≤ 2 ^ 52) :
    0 ≤ (flAdd x y).1 ∧ fval (flAdd x y) ≤ ((cx + cy : ℤ) : ℚ) := by
  simp only [flAdd]
  set p := min x.2 y.2 with hpdef
  set m := x.1 * 2 ^ (x.2 - p).toNat + y.1 * 2 ^ (y.2 - p).toNat with hmdef
  have hx2 : (((x.2 - p).toNat : Nat) : ℤ) = x.2 - p := Int.toNat_of_nonneg (by omega)
  have hy2 : (((y.2 - p).toNat : Nat) : ℤ) = y.2 - p := Int.toNat_of_nonneg (by omega)
  have hmnn : 0 ≤ m := by positivity
  have e1 : (2 : ℚ) ^ (x.2 - p) * 2 ^ p = 2 ^ x.2 := by
    rw [← zpow_add₀ (by norm_num : (2 : ℚ) ≠ 0)]
    congr 1
    ring
  have e2 : (2 : ℚ) ^ (y.2 - p) * 2 ^ p = 2 ^ y.2 := by
    rw [← zpow_add₀ (by norm_num : (2 : ℚ) ≠ 0)]
    congr 1
    ring
  have hval : ((m : ℤ) : ℚ) * 2 ^ p = fval x + fval y := by
    unfold fval
    rw [hmdef]
    push_cast
    rw [← zpow_natCast (2 : ℚ) (x.2 - p).toNat, ← zpow_natCast (2 : ℚ) (y.2 - p).toNat]
    rw [hx2, hy2]
    calc ((x.1 : ℚ) * 2 ^ (x.2 - p) + (y.1 : ℚ) * 2 ^ (y.2 - p)) * 2 ^ p
        = (x.1 : ℚ) * (2 ^ (x.2 - p) * 2 ^ p) + (y.1 : ℚ) * (2 ^ (y.2 - p) * 2 ^ p) := by
          ring
      _ = (x.1 : ℚ) * 2 ^ x.2 + (y.1 : ℚ) * 2 ^ y.2 := by rw [e1, e2]
  have hsum : fval x + fval y ≤ ((cx + cy : ℤ) : ℚ) := by
    push_cast
    linarith
  by_cases hp : 0 ≤ p
  · rw [if_pos hp, roundRat_eq_pos one_pos]
    have hcast : ((m * 2 ^ p.toNat : ℤ) : ℚ) = ((m : ℤ) : ℚ) * 2 ^ p := by
      push_cast
      rw [← zpow_natCast (2 : ℚ) p.toNat, Int.toNat_of_nonneg hp]
    constructor
    · exact roundRatPos_mantissa_nonneg (by positivity) one_pos
    · apply roundRatPos_le (by positivity) one_pos hc1 hc2
      rw [mul_one]
      have h2 : ((m * 2 ^ p.toNat : ℤ) : ℚ) ≤ ((cx + cy : ℤ) : ℚ) := by
        rw [hcast, hval]
        exact hsum
      exact_mod_cast h2
  · rw [if_neg hp, roundRat_eq_pos (by positivity)]
    push_neg at hp
    have hmp : (((-p).toNat : Nat) : ℤ) = -p := Int.toNat_of_nonneg (by omega)
    constructor
    · exact roundRatPos_mantissa_nonneg hmnn (by positivity)
    · apply roundRatPos_le hmnn (by positivity) hc1 hc2
      have hq : ((m : ℤ) : ℚ) * 2 ^ p * 2 ^ ((-p).toNat : ℕ) ≤
          ((cx + cy : ℤ) : ℚ) * 2 ^ ((-p).toNat : ℕ) :=
        mul_le_mul_of_nonneg_right (hval.le.trans hsum) (by positivity)
      have hm1 : ((m : ℤ) : ℚ) * 2 ^ p * 2 ^ ((-p).toNat : ℕ) = ((m : ℤ) : ℚ) := by
        rw [← zpow_natCast (2 : ℚ) (-p).toNat, hmp, mul_assoc,
          ← zpow_add₀ (by norm_num : (2 : ℚ) ≠ 0)]
        simp
      rw [hm1] at hq
      exact_mod_cast hq

lemma truncF_bounds {x : Int × Int} {c : Int} (hm : 0 ≤ x.1)
    (hv : fval x ≤ (c : ℚ)) : 0 ≤ truncF x ∧ truncF x ≤ c := by
  simp only [truncF]
  by_cases hp : 0 ≤ x.2
  · rw [if_pos hp]
    constructor
    · positivity
    · have hcast : ((x.1 * 2 ^ x.2.toNat : ℤ) : ℚ) = fval x := by
        unfold fval
        push_cast
        rw [← zpow_natCast (2 : ℚ) x.2.toNat, Int.toNat_of_nonneg hp]
      have h2 : ((x.1 * 2 ^ x.2.toNat : ℤ) : ℚ) ≤ (c : ℚ) := by
        rw [hcast]
        exact hv
      exact_mod_cast h2
  · rw [if_neg hp]
    push_neg at hp
    have hmp : (((-x.2).toNat : Nat) : ℤ) = -x.2 := Int.toNat_of_nonneg (by omega)
    have hDpos : (0 : ℤ) < 2 ^ (-x.2).toNat := by positivity
    have hle : x.1 ≤ c * 2 ^ (-x.2).toNat := by
      have hq : fval x * 2 ^ ((-x.2).toNat : ℕ) ≤ (c : ℚ) * 2 ^ ((-x.2).toNat : ℕ) :=
        mul_le_mul_of_nonneg_right hv (by positivity)
      have hm1 : fval x * 2 ^ ((-x.2).toNat : ℕ) = ((x.1 : ℤ) : ℚ) := by
        unfold fval
        rw [← zpow_natCast (2 : ℚ) (-x.2).toNat, hmp, mul_assoc,
          ← zpow_add₀ (by norm_num : (2 : ℚ) ≠ 0)]
        simp
      rw [hm1] at hq
      exact_mod_cast hq
    constructor
    · exact Int.tdiv_nonneg hm hDpos.le
    · rw [Int.tdiv_eq_ediv hm hDpos.le]
      calc x.1 / 2 ^ (-x.2).toNat ≤ (c * 2 ^ (-x.2).toNat) / 2 ^ (-x.2).toNat :=
            Int.ediv_le_ediv hDpos hle
        _ = c := Int.mul_ediv_cancel c (by positivity)

lemma totalPct_bounds {r tn a t2 : Nat} (hr : r ≤ tn) (ha : a ≤ t2) :
    0 ≤ totalPct r tn a t2 ∧ totalPct r tn a t2 ≤ 100 := by
  have hnode : 0 ≤ (nodeTermF r tn).1 ∧ fval (nodeTermF r tn) ≤ ((30 : ℤ) : ℚ) := by
    simp only [nodeTermF]
    by_cases ht : 0 < tn
    · rw [if_pos ht]
      obtain ⟨h1, h2⟩ := flDivNat_bounds hr ht
      apply dyadicMulNat_bounds h1 (by norm_num) (by norm_num)
      push_cast
      linarith
    · rw [if_neg ht]
      refine ⟨le_refl 0, ?_⟩
      rw [fval_pair]
      norm_num
  have hop : 0 ≤ (opTermF a t2).1 ∧ fval (opTermF a t2) ≤ ((70 : ℤ) : ℚ) := by
    simp only [opTermF]
    by_cases ht : 0 < t2
    · rw [if_pos ht]
      obtain ⟨h1, h2⟩ := flDivNat_bounds ha ht
      apply dyadicMulNat_bounds h1 (by norm_num) (by norm_num)
      push_cast
      linarith
    · rw [if_neg ht]
      refine ⟨le_refl 0, ?_⟩
      rw [fval_pair]
      norm_num
  have hadd := flAdd_bounds hnode.1 hop.1 hnode.2 hop.2 (by norm_num) (by norm_num)
  have hfin := truncF_bounds hadd.1 (by simpa using hadd.2)
  simpa [totalPct] using hfin

/-- Concrete node list with 1 of 9 nodes Ready, for the C2 counterexample. -/
def nodes19 : List KubeNode :=
  List.replicate 1 ⟨[⟨"Ready", "True"⟩]⟩ ++ List.replicate 8 ⟨[⟨"Ready", "False"⟩]⟩

/-- Concrete operator list with 5 of 21 operators Available, for the C2
counterexample. -/
def ops19 : List KubeOperator :=
  List.replicate 5 ⟨[⟨"Available", "True"⟩]⟩ ++ List.replicate 16 ⟨[]⟩

/-- C2 (corrected), counterexample to the claim as stated: with 1 of 9
nodes Ready and 5 of 21 operators Available, the program computes
`int(1/9*30 + 5/21*70) = int(19.999999999999996) = 19` in binary64
floats, while the exact formula `0.30*(1/9) + 0.70*(5/21)` over
100 equals exactly 20 and truncates to 20.  The synthesized percentage is
therefore not the truncation of the exact formula. -/
theorem C2_oc_percent_counterexample :
    ocPercent nodes19 ops19 = 19 ∧
    readyCount nodes19 = 1 ∧ nodes19.length = 9 ∧
    availCount ops19 = 5 ∧ ops19.length = 21 ∧
    ⌊specPercentQ 1 9 5 21⌋ = 20 := by
  refine ⟨by decide, by decide, by decide, by decide, by decide, ?_⟩
  norm_num [specPercentQ]

/-- C2 (amended): for every list of nodes and operators, the synthesized
oc-mode percentage — the binary64 evaluation of 0.30*(ready/total) +
0.70*(avail/totalOps) over 100, truncated toward zero, exactly as the
program computes it — lies in [0, 100]; a node is ready iff it has a
condition with type Ready and status True, an operator available iff it
has a condition with type Available and status True; a zero node or
operator total contributes an exact zero term (total functions: no
division error); and the 2/4-ready, 20/29-available instance yields 63.
The exact-rational reading of the formula is refuted by
the counterexample above. -/
theorem C2_oc_percent :
    (∀ (nodes : List KubeNode) (ops : List KubeOperator),
      0 ≤ ocPercent nodes ops ∧ ocPercent nodes ops ≤ 100) ∧
    (∀ n : KubeNode, nodeReady n = true ↔
      ∃ c ∈ n.conditions, c.type = "Ready" ∧ c.status = "True") ∧
    (∀ o : KubeOperator, opAvailable o = true ↔
      ∃ c ∈ o.conditions, c.type = "Available" ∧ c.status = "True") ∧
    (∀ (r a tOps : Nat), totalPct r 0 a tOps = truncF (flAdd (0, 0) (opTermF a tOps))) ∧
    (∀ (r tn a : Nat), totalPct r tn a 0 = truncF (flAdd (nodeTermF r tn) (0, 0))) ∧
    ocPercent nodes63 ops63 = 63 := by
  refine ⟨?_, ?_, ?_, fun r a tOps => rfl, fun r tn a => rfl, by decide⟩
  · intro nodes ops
    exact totalPct_bounds (List.countP_le_length _) (List.countP_le_length _)
  · intro n
    unfold nodeReady
    simp [List.any_eq_true, Bool.and_eq_true, beq_iff_eq]
  · intro o
    unfold opAvailable
    simp [List.any_eq_true, Bool.and_eq_true, beq_iff_eq]

/- ---------------------------------------------------------------------
   C3: oc-mode status string.
--------------------------------------------------------------------- -/

/-- C3: whenever `refresh_oc_mode` computes a (status, percent) pair, the
status is "installed" iff the percent is at least 100, and "installing"
iff it is below 100; the 4/4-ready, 29/29-available instance yields
percent 100 and status "installed". -/
theorem C3_oc_status :
    (∀ (nodes : List KubeNode) (ops : List KubeOperator) (st : String) (p : Int),
      refreshOcView nodes ops = some (st, p) →
        ((st = "installed" ↔ p ≥ 100) ∧ (st = "installing" ↔ p < 100))) ∧
    refreshOcView nodes100 ops100 = some ("installed", 100) := by
  constructor
  · intro nodes ops st p h
    unfold refreshOcView at h
    split at h
    · exact absurd h (by simp)
    · split at h
      · rename_i hp
        rw [Option.some.injEq, Prod.mk.injEq] at h
        obtain ⟨hst, hpv⟩ := h
        subst hst hpv
        constructor
        · simp [hp]
        · constructor
          · intro he
            exact absurd he (by decide)
          · intro hlt
            omega
      · rename_i hp
        rw [Option.some.injEq, Prod.mk.injEq] at h
        obtain ⟨hst, hpv⟩ := h
        subst hst hpv
        constructor
        · constructor
          · intro he
            exact absurd he (by decide)
          · intro hge
            omega
        · simp [hp]
          omega
  · have hpct : ocPercent nodes100 ops100 = 100 := by decide
    unfold refreshOcView
    rw [hpct]
    simp [nodes100]

/-- Witness for C3: the iff applied at the concrete 4/4, 29/29 instance. -/
theorem C3_oc_status_witness :
    ("installed" = "installed" ↔ (100 : Int) ≥ 100) ∧
      ("installed" = "installing" ↔ (100 : Int) < 100) :=
  C3_oc_status.1 nodes100 ops100 "installed" 100 C3_oc_status.2

/- ---------------------------------------------------------------------
   EventStream invariants (C4, C9).
--------------------------------------------------------------------- -/

/-- Invariant of the streamer state: every id has been emitted exactly once
if it is in the seen set and never otherwise, and every emitted event
carried a truthy id. -/
def StreamInv (s : StreamState) : Prop :=
  (∀ i : String, countEmit s i = if i ∈ s.seen then 1 else 0) ∧
  (∀ e ∈ s.emitted, ∃ i : String, e.event_id = some i ∧ i ≠ "")

lemma streamInv_init : StreamInv initStream := by
  constructor
  · intro i
    simp [initStream, countEmit]
  · intro e he
    simp [initStream] at he

lemma processEvent_inv {s : StreamState} (h : StreamInv s) (e : ApiEvent) :
    StreamInv (processEvent s e) := by
  obtain ⟨h1, h2⟩ := h
  cases hid : e.event_id with
  | none => simpa [processEvent, hid] using ⟨h1, h2⟩
  | some i =>
    by_cases hcond : i ≠ "" ∧ i ∉ s.seen
    · have hstep : processEvent s e = ⟨i :: s.seen, s.emitted ++ [e]⟩ := by
        simp only [processEvent, hid]
        rw [if_pos hcond]
      rw [hstep]
      constructor
      · intro j
        unfold countEmit
        dsimp only
        rw [List.countP_append]
        by_cases hji : j = i
        · subst hji
          have hz : s.emitted.countP (fun x => x.event_id == some j) = 0 := by
            have hj := h1 j
            unfold countEmit at hj
            rw [hj, if_neg hcond.2]
          simp [hz, List.countP_cons, hid]
        · have hold := h1 j
          unfold countEmit at hold
          rw [hold]
          have hbeq : (e.event_id == some j) = false := by
            rw [hid]
            simp
            exact fun hij => hji hij.symm
          simp [List.countP_cons, hbeq, List.mem_cons, hji]
      · intro e' he'
        dsimp only at he'
        rcases List.mem_append.mp he' with h' | h'
        · exact h2 e' h'
        · have he : e' = e := by simpa using h'
          subst he
          exact ⟨i, hid, hcond.1⟩
    · have hstep : processEvent s e = s := by
        simp only [processEvent, hid]
        rw [if_neg hcond]
      rw [hstep]
      exact ⟨h1, h2⟩

lemma processBatch_inv {s : StreamState} (h : StreamInv s) (b : List ApiEvent) :
    StreamInv (processBatch s b) := by
  induction b generalizing s with
  | nil => exact h
  | cons e rest ih =>
    have : processBatch s (e :: rest) = processBatch (processEvent s e) rest := rfl
    rw [this]
    exact ih (processEvent_inv h e)

lemma foldl_batches_inv {s : StreamState} (h : StreamInv s)
    (batches : List (List ApiEvent)) : StreamInv (batches.foldl processBatch s) := by
  induction batches generalizing s with
  | nil => exact h
  | cons b rest ih => exact ih (processBatch_inv h b)

lemma processBatches_inv (batches : List (List ApiEvent)) :
    StreamInv (processBatches batches) :=
  foldl_batches_inv streamInv_init batches

lemma seen_sub_processEvent (s : StreamState) (e : ApiEvent) {i : String}
    (h : i ∈ s.seen) : i ∈ (processEvent s e).seen := by
  cases hid : e.event_id with
  | none => simpa [processEvent, hid] using h
  | some j =>
    by_cases hc : j ≠ "" ∧ j ∉ s.seen
    · have hstep : processEvent s e = ⟨j :: s.seen, s.emitted ++ [e]⟩ := by
        simp only [processEvent, hid]
        rw [if_pos hc]
      rw [hstep]
      exact List.mem_cons_of_mem j h
    · have hstep : processEvent s e = s := by
        simp only [processEvent, hid]
        rw [if_neg hc]
      rw [hstep]
      exact h

lemma seen_sub_processBatch (s : StreamState) (b : List ApiEvent) {i : String}
    (h : i ∈ s.seen) : i ∈ (processBatch s b).seen := by
  induction b generalizing s with
  | nil => exact h
  | cons e rest ih => exact ih (processEvent s e) (seen_sub_processEvent s e h)

lemma seen_sub_foldl (s : StreamState) (batches : List (List ApiEvent)) {i : String}
    (h : i ∈ s.seen) : i ∈ (batches.foldl processBatch s).seen := by
  induction batches generalizing s with
  | nil => exact h
  | cons b rest ih => exact ih (processBatch s b) (seen_sub_processBatch s b h)

lemma mem_seen_processEvent (s : StreamState) {e : ApiEvent} {i : String}
    (hid : e.event_id = some i) (hne : i ≠ "") : i ∈ (processEvent s e).seen := by
  by_cases h : i ∈ s.seen
  · exact seen_sub_processEvent s e h
  · have hstep : processEvent s e = ⟨i :: s.seen, s.emitted ++ [e]⟩ := by
      simp only [processEvent, hid]
      rw [if_pos ⟨hne, h⟩]
    rw [hstep]
    exact List.mem_cons_self i s.seen

lemma mem_seen_processBatch (s : StreamState) {b : List ApiEvent} {e : ApiEvent}
    {i : String} (he : e ∈ b) (hid : e.event_id = some i) (hne : i ≠ "") :
    i ∈ (processBatch s b).seen := by
  induction b generalizing s with
  | nil => exact absurd he (List.not_mem_nil e)
  | cons hd tl ih =>
    rcases List.mem_cons.mp he with h' | h'
    · subst h'
      exact seen_sub_processBatch (processEvent s e) tl (mem_seen_processEvent s hid hne)
    · exact ih (processEvent s hd) h'

lemma mem_seen_foldl :
    ∀ (batches : List (List ApiEvent)) (s : StreamState) (b : List ApiEvent)
      (e : ApiEvent) (i : String), b ∈ batches → e ∈ b → e.event_id = some i →
      i ≠ "" → i ∈ (batches.foldl processBatch s).seen := by
  intro batches
  induction batches with
  | nil =>
    intro s b e i hb
    exact absurd hb (List.not_mem_nil b)
  | cons hd tl ih =>
    intro s b e i hb he hid hne
    rcases List.mem_cons.mp hb with h' | h'
    · subst h'
      exact seen_sub_foldl (processBatch s b) tl (mem_seen_processBatch s he hid hne)
    · exact ih (processBatch s hd) b e i h' he hid hne

lemma mem_seen_batches {batches : List (List ApiEvent)} {b : List ApiEvent}
    {e : ApiEvent} {i : String} (hb : b ∈ batches) (he : e ∈ b)
    (hid : e.event_id = some i) (hne : i ≠ "") :
    i ∈ (processBatches batches).seen :=
  mem_seen_foldl batches initStream b e i hb he hid hne

/-- C4: within one process lifetime (any sequence of polled batches from
the startup state), every event id is emitted to the side-channel log at
most once; and a truthy id that appears in at least one batch — in
particular the same id fed in two different polling cycles — is emitted
exactly once. -/
theorem C4_event_dedup :
    ∀ (batches : List (List ApiEvent)) (i : String),
      countEmit (processBatches batches) i ≤ 1 ∧
      (i ≠ "" → (∃ b ∈ batches, ∃ e ∈ b, e.event_id = some i) →
        countEmit (processBatches batches) i = 1) := by
  intro batches i
  have hinv := processBatches_inv batches
  constructor
  · rw [hinv.1 i]
    split <;> omega
  · rintro hne ⟨b, hb, e, he, hid⟩
    rw [hinv.1 i, if_pos (mem_seen_batches hb he hid hne)]

/-- Witness for C4: the id "x" fed in two different polling cycles is
emitted exactly once. -/
theorem C4_event_dedup_witness :
    countEmit (processBatches
      [[⟨some "x", "m1", "info"⟩], [⟨some "x", "m2", "info"⟩]]) "x" = 1 :=
  (C4_event_dedup [[⟨some "x", "m1", "info"⟩], [⟨some "x", "m2", "info"⟩]] "x").2
    (by decide)
    ⟨[⟨some "x", "m1", "info"⟩], by simp, ⟨some "x", "m1", "info"⟩, by simp, rfl⟩

/-- C9: an event whose event_id is missing/null (`none`) or empty (falsy)
is neither emitted nor recorded in the seen set — the state is unchanged —
and consequently every event ever emitted to the side-channel log carries
a truthy id. -/
theorem C9_idless_events :
    (∀ (s : StreamState) (e : ApiEvent),
      (e.event_id = none ∨ e.event_id = some "") → processEvent s e = s) ∧
    (∀ (batches : List (List ApiEvent)) (e : ApiEvent),
      e ∈ (processBatches batches).emitted → ∃ i, e.event_id = some i ∧ i ≠ "") := by
  constructor
  · intro s e h
    rcases h with h | h
    · simp [processEvent, h]
    · simp [processEvent, h]
  · intro batches e he
    exact (processBatches_inv batches).2 e he

/-- Witness for C9: an id-less event leaves the streamer state unchanged. -/
theorem C9_idless_events_witness :
    processEvent ⟨["a"], []⟩ ⟨none, "m", "info"⟩ = ⟨["a"], []⟩ :=
  C9_idless_events.1 ⟨["a"], []⟩ ⟨none, "m", "info"⟩ (Or.inl rfl)

/- ---------------------------------------------------------------------
   DiagnosticScheduler reentrancy guard (C8).
--------------------------------------------------------------------- -/

/-- Invariant relating the reentrancy flag and the number of in-flight
cycles: exactly one cycle runs while the flag is set, none otherwise. -/
def DebugInv (s : DebugState) : Prop :=
  s.running = if s.debugChecking then 1 else 0

lemma run_debug_check_inv {s : DebugState} (h : DebugInv s) :
    DebugInv (run_debug_check s) := by
  unfold DebugInv at h ⊢
  unfold run_debug_check
  split
  · rename_i hch
    rw [if_pos hch] at h
    simp [hch, h]
  · rename_i hch
    rw [if_neg hch] at h
    simp [h]

lemma debugStep_inv {s : DebugState} (h : DebugInv s) (ev : DebugEvent) :
    DebugInv (debugStep s ev) := by
  cases ev with
  | manual => exact run_debug_check_inv h
  | timer auto =>
    cases auto
    · exact h
    · exact run_debug_check_inv h
  | complete =>
    unfold DebugInv at h ⊢
    simp only [debugStep]
    split
    · rename_i hrun
      split at h
      · simp [h]
      · omega
    · exact h

lemma debugRun_foldl_inv (evs : List DebugEvent) :
    ∀ s : DebugState, DebugInv s → DebugInv (evs.foldl debugStep s) := by
  induction evs with
  | nil => exact fun s h => h
  | cons ev rest ih => exact fun s h => ih (debugStep s ev) (debugStep_inv h ev)

lemma debugRun_inv (evs : List DebugEvent) : DebugInv (debugRun evs) :=
  debugRun_foldl_inv evs ⟨false, 0⟩ rfl

/-- C8: along any sequence of manual triggers, timer triggers and cycle
completions from startup, at most one diagnostic cycle is ever in flight;
a trigger arriving while the reentrancy flag is set returns without
changing the state (no second cycle starts); the manual button and the
enabled periodic timer go through the same guard function; and a
completing cycle clears the flag when its results are folded. -/
theorem C8_debug_guard :
    (∀ evs : List DebugEvent, (debugRun evs).running ≤ 1) ∧
    (∀ s : DebugState, s.debugChecking = true → run_debug_check s = s) ∧
    (∀ s : DebugState, debugStep s DebugEvent.manual = run_debug_check s ∧
      debugStep s (DebugEvent.timer true) = run_debug_check s) ∧
    (∀ s : DebugState, 0 < s.running →
      (debugStep s DebugEvent.complete).debugChecking = false) := by
  refine ⟨?_, ?_, ?_, ?_⟩
  · intro evs
    have h := debugRun_inv evs
    unfold DebugInv at h
    rw [h]
    split <;> omega
  · intro s h
    unfold run_debug_check
    rw [if_pos h]
  · intro s
    exact ⟨rfl, rfl⟩
  · intro s h
    unfold debugStep
    rw [if_pos h]

/-- Witness for C8: with a cycle in flight the guard is a no-op, the empty
run has at most one cycle in flight, and completion clears the flag. -/
theorem C8_debug_guard_witness :
    run_debug_check ⟨true, 1⟩ = ⟨true, 1⟩ ∧
    (debugRun []).running ≤ 1 ∧
    (debugStep ⟨true, 1⟩ DebugEvent.complete).debugChecking = false :=
  ⟨C8_debug_guard.2.1 ⟨true, 1⟩ rfl, C8_debug_guard.1 [],
    C8_debug_guard.2.2.2 ⟨true, 1⟩ (by decide)⟩

/- ---------------------------------------------------------------------
   Hostname resolution (C6).
--------------------------------------------------------------------- -/

lemma scanIfaces_through (byMac : List (String × String)) :
    ∀ (pre : List NetIface) (i : NetIface) (post : List NetIface) (h : String),
      (∀ j ∈ pre, byMac.lookup (lowerStr j.mac_address) = none ∧
        j.ipv4_addresses = []) →
      byMac.lookup (lowerStr i.mac_address) = some h →
      scanIfaces byMac (pre ++ i :: post) = h := by
  intro pre
  induction pre with
  | nil =>
    intro i post h _ hi
    rw [List.nil_append]
    simp only [scanIfaces]
    rw [hi]
  | cons j rest ih =>
    intro i post h hpre hi
    obtain ⟨hl, hip⟩ := hpre j (List.mem_cons_self j rest)
    have hstep : scanIfaces byMac ((j :: rest) ++ i :: post) =
        scanIfaces byMac (rest ++ i :: post) := by
      rw [List.cons_append]
      simp only [scanIfaces]
      rw [hl, hip]
    rw [hstep]
    exact ih i post h (fun k hk => hpre k (List.mem_cons_of_mem j hk)) hi

/-- C6 (corrected), counterexample to the claim as stated: a host with an
empty requested hostname and an empty inventory hostname whose second
interface carries a MAC mapped to "good-node" in the manifest
nevertheless resolves to the IP address "10.0.0.5" of its first
interface, because the first-IPv4 fallback sits inside the per-interface
loop (monitor.py lines 566-571) and fires before the second interface's
MAC is ever examined. -/
theorem C6_hostname_counterexample :
    get_hostname ⟨[("aa:bb", "good-node")], ["good-node"], []⟩
        ⟨"", some ⟨"", [⟨"cc:dd", ["10.0.0.5/24"]⟩, ⟨"aa:bb", []⟩]⟩,
          "master", "", false, "dead-1"⟩ = "10.0.0.5" ∧
    ([("aa:bb", "good-node")] : List (String × String)).lookup
        (lowerStr "aa:bb") = some "good-node" ∧
    "10.0.0.5" ≠ "good-node" := by
  refine ⟨?_, by decide, by decide⟩
  decide

/-- C6 (amended): for a host with empty requested hostname and empty
inventory hostname, if some inventoried interface carries a MAC mapped in
the manifest to a hostname h (nonempty and not the literal "unknown"),
and every interface listed before it has neither a mapped MAC nor any
IPv4 address, then hostname resolution returns h — the manifest-mapped
hostname, not an IP or placeholder.  (The claim's unrestricted priority
of MAC lookup over the IPv4 fallback holds only interface by interface:
an earlier interface's IPv4 address wins over a later interface's MAC.) -/
theorem C6_hostname_amended :
    ∀ (cfg : AgentConfig) (host : ApiHost) (inv : HostInventory)
      (pre post : List NetIface) (i : NetIface) (h : String),
      host.requested_hostname = "" →
      host.inventory = some inv →
      inv.hostname = "" →
      inv.interfaces = pre ++ i :: post →
      (∀ j ∈ pre, cfg.hostname_by_mac.lookup (lowerStr j.mac_address) = none ∧
        j.ipv4_addresses = []) →
      cfg.hostname_by_mac.lookup (lowerStr i.mac_address) = some h →
      h ≠ "" → h ≠ "unknown" →
      get_hostname cfg host = h := by
  intro cfg host inv pre post i h hreq hinv hihn hifc hpre hmac hne hnu
  have hscan : scanIfaces cfg.hostname_by_mac inv.interfaces = h := by
    rw [hifc]
    exact scanIfaces_through cfg.hostname_by_mac pre i post h hpre hmac
  unfold get_hostname
  rw [hreq, hinv]
  simp only [ne_eq, not_true_eq_false, if_false, hihn, hscan]
  have hor : ¬ (h = "" ∨ h = "unknown") := by
    rintro (h1 | h2)
    · exact hne h1
    · exact hnu h2
  rw [if_neg hor]
  rw [if_neg hne]

/-- Witness for C6 (amended): the mapped MAC sits on the second interface,
the first interface has no address and no mapped MAC, so the manifest
hostname wins (even though the mapped interface also carries an IP). -/
theorem C6_hostname_witness :
    get_hostname ⟨[("aa:bb", "good-node")], ["good-node"], []⟩
        ⟨"", some ⟨"", [⟨"ee:ff", []⟩, ⟨"aa:bb", ["10.0.0.5/24"]⟩]⟩,
          "master", "", false, "dead-1"⟩ = "good-node" :=
  C6_hostname_amended ⟨[("aa:bb", "good-node")], ["good-node"], []⟩
    ⟨"", some ⟨"", [⟨"ee:ff", []⟩, ⟨"aa:bb", ["10.0.0.5/24"]⟩]⟩,
      "master", "", false, "dead-1"⟩
    ⟨"", [⟨"ee:ff", []⟩, ⟨"aa:bb", ["10.0.0.5/24"]⟩]⟩
    [⟨"ee:ff", []⟩] [] ⟨"aa:bb", ["10.0.0.5/24"]⟩ "good-node"
    rfl rfl rfl rfl (by decide) (by decide) (by decide) (by decide)

/- ---------------------------------------------------------------------
   NodeDiagnosticProbe (C5, C7, C10).
--------------------------------------------------------------------- -/

lemma head_append {c : Char} (p x : String) (h : p.data.head? = some c) :
    (p ++ x).data.head? = some c := by
  cases p with
  | mk a =>
    cases x with
    | mk b =>
      have hd : (String.mk a ++ String.mk b).data = a ++ b := rfl
      rw [hd]
      cases a with
      | nil => simp at h
      | cons hd tl => simpa using h

lemma msg_ne_unreach {m : String} {c : Char} (h : m.data.head? = some c)
    (hc : c ≠ 'S') : m ≠ "SSH unreachable" := by
  intro he
  apply hc
  have h2 : ("SSH unreachable" : String).data.head? = some c := he ▸ h
  have h3 : ("SSH unreachable" : String).data.head? = some 'S' := rfl
  exact (Option.some.inj (h3.symm.trans h2)).symm

lemma kubeletBlock_ne {s : List (String × List String)} {f : Finding}
    (hf : f ∈ kubeletBlock s) : f.2 ≠ "SSH unreachable" := by
  simp only [kubeletBlock] at hf
  split at hf
  · have he : f = ("error", "kubelet: " ++ trimStr (joinNl (getSection s "KUBELET"))) := by
      simpa using hf
    subst he
    exact msg_ne_unreach (head_append _ _ rfl) (by decide)
  · simp at hf

lemma crioBlock_ne {s : List (String × List String)} {f : Finding}
    (hf : f ∈ crioBlock s) : f.2 ≠ "SSH unreachable" := by
  simp only [crioBlock] at hf
  split at hf
  · have he : f = ("error", "crio: " ++ trimStr (joinNl (getSection s "CRIO"))) := by
      simpa using hf
    subst he
    exact msg_ne_unreach (head_append _ _ rfl) (by decide)
  · simp at hf

lemma certBlock_ne {s : List (String × List String)} {f : Finding}
    (hf : f ∈ certBlock s) : f.2 ≠ "SSH unreachable" := by
  simp only [certBlock] at hf
  split at hf
  · simp at hf
  · rcases List.mem_cons.mp hf with he | he
    · subst he
      exact msg_ne_unreach
        (head_append _ _ (head_append "TLS/cert errors (" _ rfl)) (by decide)
    · obtain ⟨l, _, he⟩ := List.mem_map.mp he
      rw [← he]
      exact msg_ne_unreach (head_append "  " _ rfl) (by decide)

lemma pullBlock_ne {s : List (String × List String)} {f : Finding}
    (hf : f ∈ pullBlock s) : f.2 ≠ "SSH unreachable" := by
  simp only [pullBlock] at hf
  split at hf
  · simp at hf
  · rcases List.mem_cons.mp hf with he | he
    · subst he
      exact msg_ne_unreach
        (head_append _ _ (head_append "Image pull errors (" _ rfl)) (by decide)
    · obtain ⟨l, _, he⟩ := List.mem_map.mp he
      rw [← he]
      exact msg_ne_unreach (head_append "  " _ rfl) (by decide)

lemma otherBlock_ne {s : List (String × List String)} {f : Finding}
    (hf : f ∈ otherBlock s) : f.2 ≠ "SSH unreachable" := by
  simp only [otherBlock] at hf
  obtain ⟨l, _, he⟩ := List.mem_map.mp hf
  rw [← he]
  exact msg_ne_unreach (head_append "  " _ rfl) (by decide)

lemma mcBlock_ne {s : List (String × List String)} {f : Finding}
    (hf : f ∈ mcBlock s) : f.2 ≠ "SSH unreachable" := by
  simp only [mcBlock] at hf
  split at hf
  · have he : f = ("warning", "MachineConfig: currentconfig not found") := by
      simpa using hf
    subst he
    exact msg_ne_unreach (rfl : ("MachineConfig: currentconfig not found" : String).data.head? = some 'M') (by decide)
  · split at hf
    · have he : f = ("info", "MC: " ++ trimStr (joinNl (getSection s "MC"))) := by
        simpa using hf
      subst he
      exact msg_ne_unreach (head_append _ _ rfl) (by decide)
    · simp at hf

lemma diskLineFinding_ne {l : String} {f : Finding}
    (hf : diskLineFinding l = some f) : f.2 ≠ "SSH unreachable" := by
  simp only [diskLineFinding] at hf
  split at hf
  · simp at hf
  · split at hf
    · rw [← Option.some.inj hf]
      exact msg_ne_unreach
        (head_append _ _ (head_append _ _ (head_append "Disk " _ rfl))) (by decide)
    · simp at hf

lemma diskBlock_ne {s : List (String × List String)} {f : Finding}
    (hf : f ∈ diskBlock s) : f.2 ≠ "SSH unreachable" := by
  simp only [diskBlock] at hf
  obtain ⟨l, _, he⟩ := List.mem_filterMap.mp hf
  exact diskLineFinding_ne he

lemma memLineFinding_ne {l : String} {f : Finding}
    (hf : memLineFinding l = some f) : f.2 ≠ "SSH unreachable" := by
  simp only [memLineFinding] at hf
  split at hf
  · split at hf
    · split at hf
      · simp at hf
      · split at hf
        · rw [← Option.some.inj hf]
          exact msg_ne_unreach
            (head_append _ _ (head_append _ _ (head_append _ _
              (head_append _ _ (head_append "Memory: " _ rfl))))) (by decide)
        · simp at hf
    · simp at hf
  · simp at hf

lemma memBlock_ne {s : List (String × List String)} {f : Finding}
    (hf : f ∈ memBlock s) : f.2 ≠ "SSH unreachable" := by
  simp only [memBlock] at hf
  obtain ⟨l, _, he⟩ := List.mem_filterMap.mp hf
  exact memLineFinding_ne he

lemma containersBlock_ne {s : List (String × List String)} {f : Finding}
    (hf : f ∈ containersBlock s) : f.2 ≠ "SSH unreachable" := by
  simp only [containersBlock] at hf
  split at hf
  · simp at hf
  · rcases List.mem_cons.mp hf with he | he
    · subst he
      exact msg_ne_unreach
        (head_append "Non-running containers: " _ rfl) (by decide)
    · obtain ⟨l, _, he⟩ := List.mem_map.mp he
      rw [← he]
      exact msg_ne_unreach (head_append "  " _ rfl) (by decide)

lemma classify_ne_unreach {out : String} {f : Finding}
    (hf : f ∈ classifyOutput out) : f.2 ≠ "SSH unreachable" := by
  simp only [classifyOutput, List.mem_append] at hf
  rcases hf with ((((((((h | h) | h) | h) | h) | h) | h) | h) | h)
  · exact kubeletBlock_ne h
  · exact crioBlock_ne h
  · exact certBlock_ne h
  · exact pullBlock_ne h
  · exact otherBlock_ne h
  · exact mcBlock_ne h
  · exact diskBlock_ne h
  · exact memBlock_ne h
  · exact containersBlock_ne h

/-- C5: for every probe outcome the probe returns a non-empty finding
sequence (the Lean model is a total function, mirroring that the Python
method catches every exception); a timeout and a connection failure each
become a single error finding; and a completed check whose classification
finds nothing wrong yields exactly one ok finding with message
"No issues detected". -/
theorem C5_probe_findings :
    (∀ r : SshResult, ssh_check_node r ≠ []) ∧
    ssh_check_node SshResult.timeout = [("error", "SSH timeout (15s)")] ∧
    (∀ msg : String,
      ssh_check_node (SshResult.sshError msg) = [("error", "SSH failed: " ++ msg)]) ∧
    (∀ (rc : Int) (out : String), ¬(rc ≠ 0 ∧ out = "") → classifyOutput out = [] →
      ssh_check_node (SshResult.completed rc out) = [("ok", "No issues detected")]) := by
  refine ⟨?_, rfl, fun msg => rfl, ?_⟩
  · intro r
    cases r with
    | timeout => simp [ssh_check_node]
    | sshError msg => simp [ssh_check_node]
    | completed rc out =>
      simp only [ssh_check_node]
      split
      · simp
      · split
        · simp
        · rename_i hne
          intro hnil
          rw [hnil] at hne
          simp at hne
  · intro rc out hg hcl
    simp only [ssh_check_node]
    rw [if_neg hg]
    simp [hcl]

/-- Witness for C5: a clean probe output (kubelet and crio active, no
issues) on a completed check yields exactly the single ok finding. -/
theorem C5_probe_findings_witness :
    ssh_check_node (SshResult.completed 0
      "===KUBELET===\nactive\n===CRIO===\nactive\n===END===") =
      [("ok", "No issues detected")] :=
  C5_probe_findings.2.2.2 0 "===KUBELET===\nactive\n===CRIO===\nactive\n===END==="
    (by decide) (by decide)

/-- C7: for every disk-usage line whose use-percentage field parses, the
probe produces a warning finding if and only if the percentage is
strictly greater than 85; a reported 86% on /var produces the warning,
85% produces none. -/
theorem C7_disk_threshold :
    (∀ (line : String) (n : Int), parsedUse line = some n →
      ((diskLineFinding line).isSome = true ↔ 85 < n)) ∧
    diskLineFinding "/dev/sda4 120G 98G 17G 86% /var" =
      some ("warning", "Disk /var: 86% used") ∧
    diskLineFinding "/dev/sda4 120G 97G 18G 85% /var" = none := by
  refine ⟨?_, by decide, by decide⟩
  intro line n h
  simp only [diskLineFinding, h]
  split
  · rename_i hgt
    simp
    omega
  · rename_i hle
    simp
    omega

/-- Witness for C7: the iff applied at the 86% line. -/
theorem C7_disk_threshold_witness :
    (diskLineFinding "/dev/sda4 120G 98G 17G 86% /var").isSome = true ↔ (85 : Int) < 86 :=
  C7_disk_threshold.1 "/dev/sda4 120G 98G 17G 86% /var" 86 (by decide)

/-- C10: a completed check reports the single "SSH unreachable" error
finding exactly when the remote command exited nonzero with empty stdout;
with non-empty stdout the output is parsed and classified normally, the
exit code playing no role. -/
theorem C10_unreachable_guard :
    ∀ (rc : Int) (out : String),
      (ssh_check_node (SshResult.completed rc out) = [("error", "SSH unreachable")] ↔
        (rc ≠ 0 ∧ out = "")) ∧
      (out ≠ "" → ssh_check_node (SshResult.completed rc out) =
        (if (classifyOutput out).isEmpty then [("ok", "No issues detected")]
         else classifyOutput out)) := by
  intro rc out
  constructor
  · constructor
    · intro h
      by_cases hg : rc ≠ 0 ∧ out = ""
      · exact hg
      · exfalso
        simp only [ssh_check_node] at h
        rw [if_neg hg] at h
        by_cases he : (classifyOutput out).isEmpty
        · rw [if_pos he] at h
          simp at h
        · rw [if_neg he] at h
          have hmem : ("error", "SSH unreachable") ∈ classifyOutput out := by
            rw [h]
            exact List.mem_cons_self _ _
          exact classify_ne_unreach hmem rfl
    · rintro ⟨h1, h2⟩
      simp only [ssh_check_node]
      rw [if_pos ⟨h1, h2⟩]
  · intro hout
    simp only [ssh_check_node]
    rw [if_neg (fun hc => hout hc.2)]

/-- Witness for C10: nonzero exit with empty stdout is the unreachable
finding; non-empty stdout is classified normally despite exit code 1. -/
theorem C10_unreachable_guard_witness :
    ssh_check_node (SshResult.completed 1 "") = [("error", "SSH unreachable")] ∧
    ssh_check_node (SshResult.completed 1 "x") =
      (if (classifyOutput "x").isEmpty then [("ok", "No issues detected")]
       else classifyOutput "x") :=
  ⟨(C10_unreachable_guard 1 "").1.mpr (by decide),
   (C10_unreachable_guard 1 "x").2 (by decide)⟩
